import Mathlib

set_option maxRecDepth 2048

/-!
# Verification of the PR review pipeline (code-intelligence-ai)

Shallow embedding of the patch-aware review pipeline:

* `extractCodeChanges` — the unified-diff parser of
  `GitHubService.extractCodeChanges` (githubService).
* `getPRCodeFiles` — file eligibility filtering and content fetch of
  `GitHubService.getPRCodeFiles`, with the fetch modelled as an oracle.
* the webhook analysis loop, aggregation and comment rendering of
  `routes/webhooks.ts` (`router.post` handler and `postPRComment`).

JavaScript strings are modelled as Lean `String` (manipulated through their
`List Char` data), JS numbers that hold line numbers, counts and scores as
`Nat` (the aggregate's rounded mean is computed over `ℚ` to model
`Math.round` on a floating-point mean), thrown exceptions as `Except String`.
-/

namespace CodeIntel

/-! ## Small string helpers (JS primitives) -/

/-- JS `String.prototype.startsWith`, over character lists. -/
def startsWithC (pre l : List Char) : Bool :=
  List.isPrefixOf pre l

/-- JS `String.prototype.split('\n')`: split into segments at newlines,
keeping empty segments. -/
def splitNl : List Char → List (List Char)
  | [] => [[]]
  | c :: cs =>
    if c = '\n' then [] :: splitNl cs
    else
      match splitNl cs with
      | [] => [[c]]
      | l :: ls => (c :: l) :: ls

/-- `parseInt(d, 10)` on a non-empty digit string. -/
def natOfDigits (ds : List Char) : Nat :=
  ds.foldl (fun n c => n * 10 + (c.toNat - 48)) 0

/-! ## DiffPatchParser: `GitHubService.extractCodeChanges` -/

inductive ChangeType where
  | added
  | removed
  | context
deriving DecidableEq, Repr

/-- One record of the parsed patch: `{ line, content, type }`. -/
structure Change where
  line : Nat
  content : String
  type : ChangeType
deriving DecidableEq, Repr

/-- Matching of the regex `@@ -(\d+),?\d* \+(\d+),?\d* @@` at the head of
`cs`; returns the two captured numbers (old start, new start). -/
def matchHunkAt (cs : List Char) : Option (Nat × Nat) :=
  match cs with
  | '@' :: '@' :: ' ' :: '-' :: rest =>
    let d1 := rest.takeWhile Char.isDigit
    let r1 := rest.dropWhile Char.isDigit
    if d1.isEmpty then none
    else
      let r2 := match r1 with
        | ',' :: t => t.dropWhile Char.isDigit
        | _ => r1
      match r2 with
      | ' ' :: '+' :: rest2 =>
        let d2 := rest2.takeWhile Char.isDigit
        let r3 := rest2.dropWhile Char.isDigit
        if d2.isEmpty then none
        else
          let r4 := match r3 with
            | ',' :: t => t.dropWhile Char.isDigit
            | _ => r3
          match r4 with
          | ' ' :: '@' :: '@' :: _ => some (natOfDigits d1, natOfDigits d2)
          | _ => none
      | _ => none
  | _ => none

/-- `line.match(/@@ -(\d+),?\d* \+(\d+),?\d* @@/)`: unanchored search,
leftmost match. -/
def scanHunk : List Char → Option (Nat × Nat)
  | [] => none
  | c :: cs =>
    match matchHunkAt (c :: cs) with
    | some r => some r
    | none => scanHunk cs

/-- The `for (const line of lines)` loop of `extractCodeChanges`, carrying
the two mutable counters `addedLine` and `removedLine`.  Note the source
increments `removedLine` in the `added` branch as well as in the `context`
branch. -/
def extractLoop : List (List Char) → Nat → Nat → List Change
  | [], _, _ => []
  | line :: rest, addedLine, removedLine =>
    if startsWithC ['@', '@'] line then
      match scanHunk line with
      | some (o, n) => extractLoop rest n o
      | none => extractLoop rest addedLine removedLine
    else if startsWithC ['+'] line && !startsWithC ['+', '+', '+'] line then
      ⟨addedLine, String.mk (line.drop 1), .added⟩ ::
        extractLoop rest (addedLine + 1) (removedLine + 1)
    else if startsWithC ['-'] line && !startsWithC ['-', '-', '-'] line then
      ⟨removedLine, String.mk (line.drop 1), .removed⟩ ::
        extractLoop rest addedLine (removedLine + 1)
    else if startsWithC [' '] line then
      ⟨addedLine, String.mk (line.drop 1), .context⟩ ::
        extractLoop rest (addedLine + 1) (removedLine + 1)
    else
      extractLoop rest addedLine removedLine

/-- `GitHubService.extractCodeChanges(patch)`: `if (!patch) return []`,
then split on newlines and run the loop with both counters at 0. -/
def extractCodeChanges (patch : String) : List Change :=
  if patch = "" then []
  else extractLoop (splitNl patch.data) 0 0

/-! ## ChangeSetFetcher output shape and `GitHubService.getPRCodeFiles` -/

inductive FileStatus where
  | added
  | modified
  | removed
  | renamed
deriving DecidableEq, Repr

/-- The string the TS union type serializes to (interpolated into the
context label and the comment body). -/
def FileStatus.str : FileStatus → String
  | .added => "added"
  | .modified => "modified"
  | .removed => "removed"
  | .renamed => "renamed"

/-- One entry of `PRInfo.files` (`PRFile` in githubService). -/
structure PRFile where
  filename : String
  status : FileStatus
  additions : Nat
  deletions : Nat
  changes : Nat
  patch : Option String
deriving DecidableEq, Repr

/-- The `codeExtensions` array of `getPRCodeFiles`. -/
def codeExtensions : List String :=
  [".js", ".jsx", ".ts", ".tsx", ".py", ".java", ".go", ".rs",
   ".cpp", ".c", ".cs", ".php", ".rb", ".swift", ".kt", ".vue",
   ".html", ".css", ".scss", ".less", ".json", ".yaml", ".yml"]

/-- Suffix of the character list starting at the last `'.'` (inclusive),
or `none` when no dot occurs. -/
def extSuffix : List Char → Option (List Char)
  | [] => none
  | c :: cs =>
    match extSuffix cs with
    | some s => some s
    | none => if c = '.' then some (c :: cs) else none

/-- `filename.substring(filename.lastIndexOf('.'))`: JS `substring` clamps
the `-1` of a dotless name to `0`, so the whole name is returned then. -/
def extOf (filename : String) : String :=
  match extSuffix filename.data with
  | some s => String.mk s
  | none => filename

/-- JS `String.prototype.toLowerCase` (ASCII case mapping). -/
def toLowerStr (s : String) : String :=
  String.mk (s.data.map Char.toLower)

/-- JS `String.prototype.toUpperCase` (ASCII case mapping). -/
def toUpperStr (s : String) : String :=
  String.mk (s.data.map Char.toUpper)

/-- The `languageMap` object of `getPRCodeFiles`. -/
def languageMap : List (String × String) :=
  [(".js", "javascript"), (".jsx", "javascript"),
   (".ts", "typescript"), (".tsx", "typescript"),
   (".py", "python"), (".java", "java"),
   (".go", "go"), (".rs", "rust"),
   (".cpp", "cpp"), (".c", "c"),
   (".cs", "csharp"), (".php", "php"),
   (".rb", "ruby"), (".swift", "swift"),
   (".kt", "kotlin"), (".vue", "vue"),
   (".html", "html"), (".css", "css"),
   (".scss", "scss"), (".less", "less"),
   (".json", "json"), (".yaml", "yaml"), (".yml", "yaml")]

/-- `languageMap[ext.toLowerCase()] || 'text'`. -/
def languageOf (extLower : String) : String :=
  match languageMap.lookup extLower with
  | some l => l
  | none => "text"

/-- One entry of the list `getPRCodeFiles` returns. -/
structure CodeFile where
  filename : String
  language : String
  code : String
  patch : Option String
  status : FileStatus
deriving DecidableEq, Repr

/-- `GitHubService.getPRCodeFiles`, with the per-file content fetch
(`getFileContent` at the PR head sha) modelled as an oracle from the file
path; a thrown fetch error is `Except.error`.  A file whose fetch throws is
only logged (`console.warn`) and *not* pushed. -/
def getPRCodeFiles (fetchFileContent : String → Except String String) :
    List PRFile → List CodeFile
  | [] => []
  | f :: rest =>
    if f.status = FileStatus.removed then
      getPRCodeFiles fetchFileContent rest
    else if !(codeExtensions.contains (toLowerStr (extOf f.filename))) then
      getPRCodeFiles fetchFileContent rest
    else
      match fetchFileContent f.filename with
      | .error _ => getPRCodeFiles fetchFileContent rest
      | .ok code =>
        ⟨f.filename, languageOf (toLowerStr (extOf f.filename)),
          String.mk (code.data.take 50000), f.patch, f.status⟩ ::
          getPRCodeFiles fetchFileContent rest

/-- The two eligibility guards of `getPRCodeFiles`, as one predicate. -/
def analysisEligible (f : PRFile) : Bool :=
  if f.status = FileStatus.removed then false
  else codeExtensions.contains (toLowerStr (extOf f.filename))

/-- `true` exactly when the modelled fetch did not throw. -/
def exceptOk : Except String String → Bool
  | .ok _ => true
  | .error _ => false

/-! ## The webhook analysis loop and aggregate (`routes/webhooks.ts`) -/

/-- One issue reported by the analysis capability. -/
structure Issue where
  severity : String
  message : String
  suggestion : Option String
deriving DecidableEq, Repr

/-- The shape `openAIService.analyzeCode` resolves with (the fields the
webhook route consumes). -/
structure AnalysisResp where
  issues : List Issue
  qualityScore : Nat
  summary : String
deriving DecidableEq, Repr

/-- One entry of the route's `fileAnalyses` array. -/
structure FileAnalysis where
  filename : String
  language : String
  status : FileStatus
  issues : List Issue
  qualityScore : Nat
  summary : String
deriving DecidableEq, Repr

/-- The context string `` `PR #${prInfo.number}: ${file.filename}
(${file.status})` `` passed to `analyzeCode`. -/
def ctxString (prNumber : Nat) (f : CodeFile) : String :=
  "PR #" ++ Nat.repr prNumber ++ ": " ++ f.filename ++ " (" ++ f.status.str ++ ")"

/-- The `for (const file of codeFiles)` loop of the webhook route: the
analysis call is modelled as an oracle `analyzeCode code language context`;
a rejection is `Except.error` with the error message, and the catch block
pushes the placeholder entry. -/
def runAnalyses (prNumber : Nat)
    (analyzeCode : String → String → String → Except String AnalysisResp) :
    List CodeFile → List FileAnalysis
  | [] => []
  | f :: rest =>
    (match analyzeCode f.code f.language (ctxString prNumber f) with
      | .ok a => ⟨f.filename, f.language, f.status, a.issues, a.qualityScore, a.summary⟩
      | .error e =>
        ⟨f.filename, f.language, f.status, [], 0,
          "Analysis failed: " ++ e⟩) ::
      runAnalyses prNumber analyzeCode rest

/-- `fileAnalyses.reduce((sum, f) => sum + f.qualityScore, 0)`. -/
def sumScores (fas : List FileAnalysis) : Nat :=
  fas.foldl (fun s f => s + f.qualityScore) 0

/-- `fileAnalyses.flatMap(f => f.issues)`. -/
def allIssues (fas : List FileAnalysis) : List Issue :=
  fas.flatMap (fun f => f.issues)

/-- `allIssues.filter(i => i.severity === sev).length`. -/
def countSeverity (sev : String) (issues : List Issue) : Nat :=
  (issues.filter (fun i => i.severity = sev)).length

/-- `Math.round(avgScore)` where `avgScore` is
`fileAnalyses.length > 0 ? sum / length : 0`.  On the non-negative rational
`s / l`, JS `Math.round` (round half toward `+∞`) is `⌊s/l + 1/2⌋`, which
equals `(2*s + l) / (2*l)` in integer division — the theorem
`aggregate_c4` proves this definition equal to Mathlib's `round` of the
rational mean. -/
def overallScoreOf (fas : List FileAnalysis) : Nat :=
  if 0 < fas.length then
    (2 * sumScores fas + fas.length) / (2 * fas.length)
  else 0

/-- The `analysisResult` object of the webhook route (lines 78-92). -/
structure AnalysisResult where
  overallScore : Nat
  files : List FileAnalysis
  totalIssues : Nat
  criticalIssues : Nat
  warnings : Nat
  summary : String
deriving DecidableEq, Repr

/-- Lines 78-92 of the webhook route: counts, rounded mean, summary. -/
def aggregateOf (prNumber : Nat) (fas : List FileAnalysis) : AnalysisResult :=
  { overallScore := overallScoreOf fas
    files := fas
    totalIssues := (allIssues fas).length
    criticalIssues := countSeverity "critical" (allIssues fas)
    warnings := countSeverity "warning" (allIssues fas)
    summary :=
      "Analyzed " ++ Nat.repr fas.length ++ " files in PR #" ++
        Nat.repr prNumber ++ ". Found " ++
        Nat.repr (countSeverity "critical" (allIssues fas)) ++
        " critical issues and " ++
        Nat.repr (countSeverity "warning" (allIssues fas)) ++ " warnings." }

/-- The webhook route body after the PR info fetch: build `codeFiles`,
short-circuit with the fixed score-100 verdict when it is empty, otherwise
run the analysis loop and aggregate. -/
def webhookRun (prNumber : Nat)
    (fetchFileContent : String → Except String String)
    (analyzeCode : String → String → String → Except String AnalysisResp)
    (files : List PRFile) : AnalysisResult :=
  let codeFiles := getPRCodeFiles fetchFileContent files
  if codeFiles.length = 0 then
    { overallScore := 100
      files := []
      totalIssues := 0
      criticalIssues := 0
      warnings := 0
      summary := "No code files found in this PR" }
  else
    aggregateOf prNumber (runAnalyses prNumber analyzeCode codeFiles)

/-! ## Comment rendering (`postPRComment`, lines 142-179) -/

/-- `file.status === 'added' ? '➕' : file.status === 'modified' ? '📝' : '🗑️'`. -/
def statusEmoji (s : FileStatus) : String :=
  if s = FileStatus.added then "➕"
  else if s = FileStatus.modified then "📝"
  else "🗑️"

/-- `issue.severity === 'critical' ? '🔴' : issue.severity === 'warning' ? '⚠️' : 'ℹ️'`. -/
def severityEmoji (sev : String) : String :=
  if sev = "critical" then "🔴"
  else if sev = "warning" then "⚠️"
  else "ℹ️"

/-- The two `comment +=` statements for one rendered issue. -/
def issueLine (issue : Issue) : String :=
  severityEmoji issue.severity ++ " **" ++ toUpperStr issue.severity ++ "**: " ++
    issue.message ++ "\n" ++
    (match issue.suggestion with
      | some sug => "   💡 *" ++ sug ++ "*\n"
      | none => "")

/-- The `if (file.issues.length > 0)` block: render `issues.slice(0, 5)`
and, when more than five issues exist, the `... and N more issues` line. -/
def issuesBlock (issues : List Issue) : String :=
  if 0 < issues.length then
    String.join ((issues.take 5).map issueLine) ++
      (if 5 < issues.length then
        "\n*... and " ++ Nat.repr (issues.length - 5) ++ " more issues*\n"
      else "")
  else ""

/-- The per-file section of the comment body. -/
def fileBlock (f : FileAnalysis) : String :=
  "#### " ++ statusEmoji f.status ++ " " ++ f.filename ++ "\n" ++
    "- **Status:** " ++ f.status.str ++ "\n" ++
    "- **Language:** " ++ f.language ++ "\n" ++
    "- **Quality Score:** " ++ Nat.repr f.qualityScore ++ "/100\n" ++
    "- **Issues Found:** " ++ Nat.repr f.issues.length ++ "\n\n" ++
    issuesBlock f.issues ++ "\n"

/-- The `for (const file of result.files)` rendering loop. -/
def filesSection : List FileAnalysis → String
  | [] => ""
  | f :: rest => fileBlock f ++ filesSection rest

/-- The full comment body built by `postPRComment`. -/
def commentBody (result : AnalysisResult) : String :=
  "## 🤖 AI Code Analysis Results\n\n" ++
    "**Overall Quality Score:** " ++ Nat.repr result.overallScore ++ "/100\n\n" ++
    "**Summary:**\n" ++
    "- Files Analyzed: " ++ Nat.repr result.files.length ++ "\n" ++
    "- Total Issues: " ++ Nat.repr result.totalIssues ++ "\n" ++
    "- Critical Issues: " ++ Nat.repr result.criticalIssues ++ " 🔴\n" ++
    "- Warnings: " ++ Nat.repr result.warnings ++ " ⚠️\n\n" ++
    result.summary ++ "\n\n" ++
    (if 0 < result.files.length then
      "### Files Analysis\n\n" ++ filesSection result.files
    else "") ++
    "---\n*Analyzed by [Code Intelligence AI](https://github.com/yourusername/code-intelligence-ai)*"

/-! ## Substring search used to state facts about the rendered body -/

/-- `needle` occurs as a contiguous substring of the character list. -/
def containsAux : List Char → List Char → Bool
  | [], needle => needle.isEmpty
  | c :: cs, needle => List.isPrefixOf needle (c :: cs) || containsAux cs needle

/-- `hay` contains `needle` as a contiguous substring. -/
def containsSub (hay needle : String) : Bool :=
  containsAux hay.data needle.data

/-- A diff line that makes the parser loop emit a record: not a hunk-header
candidate, and prefixed by `+` (not `+++`), `-` (not `---`), or a space. -/
def emitsLine (l : List Char) : Bool :=
  !startsWithC ['@', '@'] l &&
    ((startsWithC ['+'] l && !startsWithC ['+', '+', '+'] l) ||
     (startsWithC ['-'] l && !startsWithC ['-', '-', '-'] l) ||
     startsWithC [' '] l)

/-! ## Concrete fixtures used by witnesses and counterexamples -/

def fA : PRFile := ⟨"a.ts", .modified, 5, 1, 6, none⟩

def fB : PRFile := ⟨"b.ts", .modified, 3, 2, 5, none⟩

def fC : PRFile := ⟨"c.ts", .added, 7, 0, 7, none⟩

/-- Content fetch oracle whose fetch of `b.ts` throws. -/
def fetchBFails : String → Except String String :=
  fun p => if p = "b.ts" then .error "File b.ts not found at headsha" else .ok "const x = 1"

/-- Analysis oracle that always succeeds with score 95 and no issues. -/
def analyzeAllOk : String → String → String → Except String AnalysisResp :=
  fun _ _ _ => .ok ⟨[], 95, "Looks good"⟩

def cfGood : CodeFile := ⟨"a.ts", "typescript", "const x = 1", none, .modified⟩

def cfBad : CodeFile := ⟨"b.ts", "typescript", "bad", none, .modified⟩

/-- Analysis oracle that rejects exactly on the content "bad". -/
def analyzeFailOnBad : String → String → String → Except String AnalysisResp :=
  fun code _ _ => if code = "bad" then .error "boom" else .ok ⟨[], 88, "ok"⟩

def fasScores : List FileAnalysis :=
  [⟨"a.ts", "typescript", .modified, [], 90, "s1"⟩,
   ⟨"b.ts", "typescript", .modified, [], 70, "s2"⟩,
   ⟨"c.ts", "typescript", .modified, [], 50, "s3"⟩]

def okFA : FileAnalysis := ⟨"a.ts", "typescript", .modified, [], 90, "Good code"⟩

def failFA : FileAnalysis := ⟨"b.ts", "typescript", .modified, [], 0, "Analysis failed: boom"⟩

def mkIssue (msg : String) : Issue := ⟨"warning", msg, none⟩

def issuesSeven : List Issue :=
  [mkIssue "w1", mkIssue "w2", mkIssue "w3", mkIssue "w4", mkIssue "w5",
   mkIssue "w6", mkIssue "w7"]

def issuesSevenAlt : List Issue :=
  [mkIssue "w1", mkIssue "w2", mkIssue "w3", mkIssue "w4", mkIssue "w5",
   mkIssue "x6", mkIssue "x7"]

/-! # Theorems -/

/-! ## C6: the worked three-line hunk example -/

/-- C6: parsing the patch `@@ -10,3 +20,3 @@` followed by one removed, one
context and one added line yields exactly the three records: `removed` at
old-line 10, `context` at new-line 20, `added` at new-line 21. -/
theorem extract_c6_example :
    extractCodeChanges "@@ -10,3 +20,3 @@\n-old\n ctx\n+new" =
      [⟨10, "old", .removed⟩, ⟨20, "ctx", .context⟩, ⟨21, "new", .added⟩] := by
  decide

/-! ## C2: line-number bookkeeping within a hunk -/

/-- C2: evaluation of the parser at the failing input.  After the hunk
header `@@ -10,3 +20,3 @@`, one context line and one added line, the
removed line `b` is old-file line 11 (10 for the context line, +1), but the
parser emits it at 12 because the `added` branch also increments the
old-file counter (`removedLine++`), contradicting the claim that an added
line advances only the new-file counter. -/
theorem extract_c2_bug_eval :
    extractCodeChanges "@@ -10,3 +20,3 @@\n x\n+a\n-b" =
      [⟨20, "x", .context⟩, ⟨21, "a", .added⟩, ⟨12, "b", .removed⟩] ∧
    extractCodeChanges "@@ -10,3 +20,3 @@\n x\n+a\n-b" ≠
      [⟨20, "x", .context⟩, ⟨21, "a", .added⟩, ⟨11, "b", .removed⟩] := by
  decide

/-! ## C7: malformed and count-less hunk headers -/

/-- C7 counterexample: a hunk introduced by a malformed header does *not*
produce zero records — the header line is skipped but the hunk's body lines
are still emitted, numbered from the counters in effect (initially 0). -/
theorem extract_c7_counterexample :
    extractCodeChanges "@@ bad @@\n+x" = [⟨0, "x", .added⟩] ∧
    extractCodeChanges "@@ bad @@\n+x" ≠ [] := by
  decide

/-- C7 (amended): a hunk-header line whose numbers do not match the
expected pattern is skipped without resetting the counters or aborting the
parse of the remaining patch (so its hunk's body lines are emitted with the
counters previously in effect), and a hunk header with a missing `,<count>`
part parses fine. -/
theorem extract_c7_amended (a r : Nat) (ls : List (List Char)) (bad : List Char)
    (h1 : startsWithC ['@', '@'] bad = true) (h2 : scanHunk bad = none) :
    extractLoop (bad :: ls) a r = extractLoop ls a r ∧
    extractCodeChanges "@@ -10 +20 @@\n+x" = [⟨20, "x", .added⟩] := by
  refine ⟨?_, by decide⟩
  simp [extractLoop, h1, h2]

/-- Witness for `extract_c7_amended` at the malformed header `@@ bad @@`. -/
theorem extract_c7_amended_witness :
    extractLoop ("@@ bad @@".data :: ["+x".data]) 0 0 = extractLoop ["+x".data] 0 0 ∧
    extractCodeChanges "@@ -10 +20 @@\n+x" = [⟨20, "x", .added⟩] :=
  extract_c7_amended 0 0 ["+x".data] "@@ bad @@".data (by decide) (by decide)

/-! ## C8: empty patches and material before the first hunk header -/

/-- C8 counterexample: a patch with zero hunk headers does *not* always
yield an empty sequence — a pre-header line starting with `+` emits a
record (at new-line 0, the counter's initial value). -/
theorem extract_c8_counterexample :
    extractCodeChanges "+hello" = [⟨0, "hello", .added⟩] ∧
    extractCodeChanges "+hello" ≠ [] := by
  decide

/-- C8 (amended): parsing the empty string returns an empty sequence and
never an error, and a patch none of whose lines is an emitting line (`+`
not `+++`, `-` not `---`, or space prefixed, outside header candidates)
yields an empty sequence; pre-header `+`/`-`/space lines, however, do emit
records numbered from the zero-initialized counters. -/
theorem extract_c8_amended (ls : List (List Char)) (a r : Nat)
    (h : ∀ l ∈ ls, emitsLine l = false) :
    extractCodeChanges "" = [] ∧ extractLoop ls a r = [] := by
  refine ⟨rfl, ?_⟩
  induction ls generalizing a r with
  | nil => rfl
  | cons line rest ih =>
    have hl := h line (List.mem_cons_self _ _)
    have hrest : ∀ l ∈ rest, emitsLine l = false :=
      fun l hm => h l (List.mem_cons_of_mem _ hm)
    by_cases hq : startsWithC ['@', '@'] line = true
    · cases hs : scanHunk line with
      | none => simp [extractLoop, hq, hs, ih _ _ hrest]
      | some p => cases p with
        | mk o n => simp [extractLoop, hq, hs, ih _ _ hrest]
    · simp only [emitsLine, hq, Bool.not_eq_true] at hl
      simp only [Bool.not_false, Bool.true_and, Bool.or_eq_false_iff,
        Bool.and_eq_false_iff] at hl
      obtain ⟨⟨hp, hm⟩, hsp⟩ := hl
      simp only [Bool.not_eq_true] at hq
      rcases hp with hp | hp <;> rcases hm with hm | hm <;>
        simp [extractLoop, hq, hp, hm, hsp, ih _ _ hrest]

/-- Witness for `extract_c8_amended` on a zero-hunk patch of non-emitting
lines. -/
theorem extract_c8_amended_witness :
    extractCodeChanges "" = [] ∧
    extractLoop ["diff --git a/x b/x".data, "index 1..2 100644".data,
      "@@ bad @@".data] 0 0 = [] :=
  extract_c8_amended
    ["diff --git a/x b/x".data, "index 1..2 100644".data, "@@ bad @@".data]
    0 0 (by decide)

/-! ## C1: a changed file whose content fetch fails -/

/-- C1 counterexample: a PR with three eligible changed files `a.ts`,
`b.ts`, `c.ts` where the content fetch of `b.ts` throws yields only two
per-file results — `b.ts` is silently dropped, not degraded to a
placeholder, so the aggregate does not have three entries. -/
theorem webhook_c1_counterexample :
    ((webhookRun 7 fetchBFails analyzeAllOk [fA, fB, fC]).files.map
        (fun f => f.filename) = ["a.ts", "c.ts"]) ∧
    (webhookRun 7 fetchBFails analyzeAllOk [fA, fB, fC]).files.length ≠ 3 := by
  decide

/-- C1 (amended): a changed file whose content fetch throws is skipped
(only logged), so the files that reach analysis — in unchanged relative
order — are exactly the eligible files whose content fetch succeeded; the
failing file is dropped from the report and subsequent files are still
processed. -/
theorem getPRCodeFiles_c1_amended (fetch : String → Except String String)
    (files : List PRFile) :
    (getPRCodeFiles fetch files).map (fun cf => cf.filename) =
      (files.filter (fun f => analysisEligible f && exceptOk (fetch f.filename))).map
        (fun f => f.filename) := by
  induction files with
  | nil => rfl
  | cons f rest ih =>
    by_cases h1 : f.status = FileStatus.removed
    · simp [getPRCodeFiles, analysisEligible, h1, List.filter_cons, ih]
    · by_cases h2 : toLowerStr (extOf f.filename) ∈ codeExtensions
      · cases hf : fetch f.filename with
        | error e =>
          simp [getPRCodeFiles, analysisEligible, exceptOk, h1, h2, hf,
            List.filter_cons, ih]
        | ok code =>
          simp [getPRCodeFiles, analysisEligible, exceptOk, h1, h2, hf,
            List.filter_cons, ih]
      · simp [getPRCodeFiles, analysisEligible, h1, h2, List.filter_cons, ih]

/-! ## C3: a file whose analysis call rejects -/

/-- The analysis loop emits exactly one result per analyzed file. -/
theorem runAnalyses_length (pr : Nat)
    (az : String → String → String → Except String AnalysisResp)
    (files : List CodeFile) :
    (runAnalyses pr az files).length = files.length := by
  induction files with
  | nil => rfl
  | cons f rest ih => simp [runAnalyses, ih]

/-- C3: when the analysis call for the `i`-th file rejects with message
`e`, the output still has one entry per input file, and the `i`-th output
entry is the placeholder: empty issue list, score 0, summary carrying the
failure reason. -/
theorem runAnalyses_c3 (pr : Nat)
    (az : String → String → String → Except String AnalysisResp)
    (files : List CodeFile) (i : Nat) (f : CodeFile) (e : String)
    (hf : files[i]? = some f)
    (he : az f.code f.language (ctxString pr f) = .error e) :
    (runAnalyses pr az files).length = files.length ∧
    (runAnalyses pr az files)[i]? =
      some ⟨f.filename, f.language, f.status, [], 0, "Analysis failed: " ++ e⟩ := by
  refine ⟨runAnalyses_length pr az files, ?_⟩
  induction files generalizing i with
  | nil => simp at hf
  | cons g rest ih =>
    cases i with
    | zero =>
      simp only [List.getElem?_cons_zero, Option.some.injEq] at hf
      subst hf
      simp [runAnalyses, he]
    | succ n =>
      simp only [List.getElem?_cons_succ] at hf
      simpa [runAnalyses] using ih n hf

/-- Witness for `runAnalyses_c3`: the second of two files rejects with
"boom" and gets the placeholder in position 1. -/
theorem runAnalyses_c3_witness :
    (runAnalyses 7 analyzeFailOnBad [cfGood, cfBad]).length =
      [cfGood, cfBad].length ∧
    (runAnalyses 7 analyzeFailOnBad [cfGood, cfBad])[1]? =
      some ⟨"b.ts", "typescript", .modified, [], 0, "Analysis failed: " ++ "boom"⟩ :=
  runAnalyses_c3 7 analyzeFailOnBad [cfGood, cfBad] 1 cfBad "boom" (by rfl) (by rfl)

/-! ## C9: eligibility filtering before analysis -/

/-- `getPRCodeFiles` only looks at the eligible files. -/
theorem getPRCodeFiles_filter_eligible (fetch : String → Except String String)
    (files : List PRFile) :
    getPRCodeFiles fetch files =
      getPRCodeFiles fetch (files.filter analysisEligible) := by
  induction files with
  | nil => rfl
  | cons f rest ih =>
    by_cases h1 : f.status = FileStatus.removed
    · simp [getPRCodeFiles, analysisEligible, h1, List.filter_cons, ih]
    · by_cases h2 : toLowerStr (extOf f.filename) ∈ codeExtensions
      · cases hf : fetch f.filename with
        | error e =>
          simp [getPRCodeFiles, analysisEligible, h1, h2, hf,
            List.filter_cons, ih]
        | ok code =>
          simp [getPRCodeFiles, analysisEligible, h1, h2, hf,
            List.filter_cons, ih]
      · simp [getPRCodeFiles, analysisEligible, h1, h2, List.filter_cons, ih]

/-- Every file reaching the analyzed list passed both eligibility guards. -/
theorem getPRCodeFiles_mem_eligible (fetch : String → Except String String)
    (files : List PRFile) (cf : CodeFile)
    (h : cf ∈ getPRCodeFiles fetch files) :
    cf.status ≠ FileStatus.removed ∧
    toLowerStr (extOf cf.filename) ∈ codeExtensions := by
  induction files with
  | nil => simp [getPRCodeFiles] at h
  | cons f rest ih =>
    by_cases h1 : f.status = FileStatus.removed
    · simp only [getPRCodeFiles, if_pos h1] at h
      exact ih h
    · by_cases h2 : toLowerStr (extOf f.filename) ∈ codeExtensions
      · cases hf : fetch f.filename with
        | error e =>
          simp [getPRCodeFiles, h1, h2, hf] at h
          exact ih h
        | ok code =>
          simp [getPRCodeFiles, h1, h2, hf] at h
          rcases h with rfl | hh
          · exact ⟨h1, h2⟩
          · exact ih hh
      · simp [getPRCodeFiles, h1, h2] at h
        exact ih h

/-- C9: every file reaching analysis has status other than `removed` and a
recognized extension, and the analyzed list is unchanged when the
non-eligible files are removed up front (they are excluded before
analysis, never fetched or analyzed). -/
theorem getPRCodeFiles_c9 (fetch : String → Except String String)
    (files : List PRFile) (cf : CodeFile)
    (h : cf ∈ getPRCodeFiles fetch files) :
    cf.status ≠ FileStatus.removed ∧
    toLowerStr (extOf cf.filename) ∈ codeExtensions ∧
    getPRCodeFiles fetch files =
      getPRCodeFiles fetch (files.filter analysisEligible) :=
  ⟨(getPRCodeFiles_mem_eligible fetch files cf h).1,
   (getPRCodeFiles_mem_eligible fetch files cf h).2,
   getPRCodeFiles_filter_eligible fetch files⟩

/-- Witness for `getPRCodeFiles_c9` at a concrete eligible file. -/
theorem getPRCodeFiles_c9_witness :
    (⟨"a.ts", "typescript", "const x = 1", none, .modified⟩ : CodeFile).status ≠
        FileStatus.removed ∧
    toLowerStr (extOf "a.ts") ∈ codeExtensions ∧
    getPRCodeFiles fetchBFails [fA] =
      getPRCodeFiles fetchBFails ([fA].filter analysisEligible) :=
  getPRCodeFiles_c9 fetchBFails [fA]
    ⟨"a.ts", "typescript", "const x = 1", none, .modified⟩ (by decide)

/-! ## C4: the aggregate's overall score -/

/-- The route's `reduce` accumulator equals the sum of the scores. -/
theorem sumScores_eq (fas : List FileAnalysis) :
    sumScores fas = (fas.map (fun f => f.qualityScore)).sum := by
  suffices h : ∀ n : Nat, fas.foldl (fun s f => s + f.qualityScore) n =
      n + (fas.map (fun f => f.qualityScore)).sum by
    simpa [sumScores] using h 0
  induction fas with
  | nil => simp
  | cons f rest ih => intro n; simp [ih, Nat.add_assoc]

/-- Integer-division form of `Math.round` of a non-negative mean. -/
theorem jsRound_eq_round (s l : Nat) (hl : 0 < l) :
    (((2 * s + l) / (2 * l) : Nat) : ℤ) = round ((s : ℚ) / (l : ℚ)) := by
  have hl' : (l : ℚ) ≠ 0 := Nat.cast_ne_zero.mpr hl.ne'
  rw [round_eq]
  have h1 : (s : ℚ) / (l : ℚ) + 1 / 2 = ((2 * s + l : Nat) : ℚ) / ((2 * l : Nat) : ℚ) := by
    push_cast
    field_simp
    ring
  rw [h1, Rat.floor_natCast_div_natCast]
  push_cast
  rfl

/-- C4: for a non-empty result list the aggregate's overall score is the
arithmetic mean of the per-file scores rounded to the nearest integer
(half rounds up, as JS `Math.round`); for a PR with zero analyzed files the
route returns the fixed verdict with score 100 and zero issue counts. -/
theorem aggregate_c4 (pr : Nat) (fas : List FileAnalysis)
    (fetch : String → Except String String)
    (az : String → String → String → Except String AnalysisResp)
    (files : List PRFile)
    (hne : fas ≠ [])
    (hempty : getPRCodeFiles fetch files = []) :
    ((aggregateOf pr fas).overallScore : ℤ) =
      round ((((fas.map (fun f => f.qualityScore)).sum : ℕ) : ℚ) / (fas.length : ℚ)) ∧
    webhookRun pr fetch az files =
      ⟨100, [], 0, 0, 0, "No code files found in this PR"⟩ := by
  constructor
  · have hl : 0 < fas.length := List.length_pos.mpr hne
    have hs : (aggregateOf pr fas).overallScore =
        (2 * sumScores fas + fas.length) / (2 * fas.length) := by
      simp [aggregateOf, overallScoreOf, hl]
    rw [hs, sumScores_eq]
    exact jsRound_eq_round _ _ hl
  · simp [webhookRun, hempty]

/-- Witness for `aggregate_c4`: scores 90, 70, 50 aggregate to 70, and an
empty PR yields the fixed score-100 verdict. -/
theorem aggregate_c4_witness :
    (aggregateOf 7 fasScores).overallScore = 70 ∧
    webhookRun 7 fetchBFails analyzeAllOk [] =
      ⟨100, [], 0, 0, 0, "No code files found in this PR"⟩ := by
  have h := aggregate_c4 7 fasScores fetchBFails analyzeAllOk [] (by decide) rfl
  refine ⟨?_, h.2⟩
  have h70 : round ((((fasScores.map (fun f => f.qualityScore)).sum : ℕ) : ℚ) /
      (fasScores.length : ℚ)) = 70 := by
    norm_num [fasScores, round_eq]
  have := h.1.trans h70
  exact_mod_cast this

/-! ## C10: at most five issues rendered per file -/

/-- C10: the rendered issue section of a file shows exactly the first five
issues (in list order) followed by the `... and N more issues` line when
more than five exist, and depends only on the first five issues and the
total count — issues beyond the fifth never influence the rendering. -/
theorem issuesBlock_c10 (l l1 l2 : List Issue) (h5 : 5 < l.length)
    (ht : l1.take 5 = l2.take 5) (hl : l1.length = l2.length) :
    issuesBlock l =
      String.join ((l.take 5).map issueLine) ++
        ("\n*... and " ++ Nat.repr (l.length - 5) ++ " more issues*\n") ∧
    issuesBlock l1 = issuesBlock l2 := by
  constructor
  · have h0 : 0 < l.length := by omega
    simp [issuesBlock, h0, h5]
  · simp only [issuesBlock, ht, hl]

/-- Witness for `issuesBlock_c10` at a seven-issue list and a variant
differing only in issues six and seven. -/
theorem issuesBlock_c10_witness :
    issuesBlock issuesSeven =
      String.join ((issuesSeven.take 5).map issueLine) ++
        ("\n*... and " ++ Nat.repr (issuesSeven.length - 5) ++ " more issues*\n") ∧
    issuesBlock issuesSeven = issuesBlock issuesSevenAlt :=
  issuesBlock_c10 issuesSeven issuesSeven issuesSevenAlt (by decide) (by decide)
    (by decide)

/-! ## C5: visibility of failed files in the published comment -/

/-- C5 counterexample: a run whose aggregate contains the failed file
`b.ts` (summary "Analysis failed: boom") renders a comment body that does
*not* contain that failure summary anywhere — the per-file summary field is
never rendered, so the failure reason is not visible to reviewers. -/
theorem comment_c5_counterexample :
    ((aggregateOf 7 [okFA, failFA]).files.map (fun f => f.summary)).contains
        "Analysis failed: boom" = true ∧
    containsSub (commentBody (aggregateOf 7 [okFA, failFA]))
      "Analysis failed: boom" = false := by
  decide

theorem isPrefixOf_append_left (n h t : List Char)
    (hp : List.isPrefixOf n h = true) : List.isPrefixOf n (h ++ t) = true := by
  induction n generalizing h with
  | nil => simp [List.isPrefixOf]
  | cons a as ih =>
    cases h with
    | nil => simp [List.isPrefixOf] at hp
    | cons b bs =>
      simp only [List.isPrefixOf, Bool.and_eq_true, beq_iff_eq,
        List.cons_append] at hp ⊢
      exact ⟨hp.1, ih bs hp.2⟩

theorem containsAux_append_right (a b n : List Char)
    (h : containsAux b n = true) : containsAux (a ++ b) n = true := by
  induction a with
  | nil => exact h
  | cons x a' ih => simp [containsAux, ih]

theorem containsAux_append_left (a b n : List Char)
    (h : containsAux a n = true) : containsAux (a ++ b) n = true := by
  induction a with
  | nil =>
    simp only [containsAux, List.isEmpty_iff] at h
    subst h
    cases b with
    | nil => rfl
    | cons c cs => simp [containsAux, List.isPrefixOf]
  | cons x a' ih =>
    simp only [containsAux, Bool.or_eq_true] at h
    rcases h with h | h
    · simp only [List.cons_append, containsAux, Bool.or_eq_true]
      exact Or.inl (isPrefixOf_append_left n (x :: a') b h)
    · simp only [List.cons_append, containsAux, Bool.or_eq_true]
      exact Or.inr (ih h)

theorem containsSub_append_left (a b n : String)
    (h : containsSub a n = true) : containsSub (a ++ b) n = true := by
  unfold containsSub at h ⊢
  rw [String.data_append]
  exact containsAux_append_left _ _ _ h

theorem containsSub_append_right (a b n : String)
    (h : containsSub b n = true) : containsSub (a ++ b) n = true := by
  unfold containsSub at h ⊢
  rw [String.data_append]
  exact containsAux_append_right _ _ _ h

theorem isPrefixOf_refl (l : List Char) : List.isPrefixOf l l = true := by
  induction l with
  | nil => rfl
  | cons c cs ih => simp [List.isPrefixOf, ih]

theorem containsSub_self (s : String) : containsSub s s = true := by
  unfold containsSub
  cases h : s.data with
  | nil => rfl
  | cons c cs => simp [containsAux, isPrefixOf_refl]

/-- A string of the shape `pre ++ (n ++ post)` contains `n`. -/
theorem containsSub_sandwich (pre n post : String) :
    containsSub (pre ++ (n ++ post)) n = true :=
  containsSub_append_right pre (n ++ post) n
    (containsSub_append_left n post n (containsSub_self n))

/-- Every per-file block of the comment contains the file's name. -/
theorem fileBlock_contains_filename (f : FileAnalysis) :
    containsSub (fileBlock f) f.filename = true := by
  have heq : fileBlock f =
      ("#### " ++ statusEmoji f.status ++ " ") ++
        (f.filename ++
          ("\n" ++ "- **Status:** " ++ f.status.str ++ "\n" ++
            "- **Language:** " ++ f.language ++ "\n" ++
            "- **Quality Score:** " ++ Nat.repr f.qualityScore ++ "/100\n" ++
            "- **Issues Found:** " ++ Nat.repr f.issues.length ++ "\n\n" ++
            issuesBlock f.issues ++ "\n")) := by
    simp [fileBlock, String.append_assoc]
  rw [heq]
  exact containsSub_sandwich _ _ _

/-- The files section of the comment mentions every listed file. -/
theorem filesSection_contains (fas : List FileAnalysis) (f : FileAnalysis)
    (h : f ∈ fas) : containsSub (filesSection fas) f.filename = true := by
  induction fas with
  | nil => simp at h
  | cons g rest ih =>
    rcases List.mem_cons.mp h with rfl | hh
    · exact containsSub_append_left _ _ _ (fileBlock_contains_filename f)
    · exact containsSub_append_right _ _ _ (ih hh)

/-- C5 (amended): the published comment explicitly lists every file of the
aggregate — including a file degraded by an analysis failure, which appears
with quality score 0 and zero issues — but the per-file summary (and hence
the failure reason) is not part of the rendered body. -/
theorem comment_c5_amended (result : AnalysisResult) (f : FileAnalysis)
    (h : f ∈ result.files) :
    containsSub (commentBody result) f.filename = true := by
  have h0 : 0 < result.files.length := List.length_pos.mpr (List.ne_nil_of_mem h)
  have heq : commentBody result =
      ("## 🤖 AI Code Analysis Results\n\n" ++ "**Overall Quality Score:** " ++
        Nat.repr result.overallScore ++ "/100\n\n" ++ "**Summary:**\n" ++
        "- Files Analyzed: " ++ Nat.repr result.files.length ++ "\n" ++
        "- Total Issues: " ++ Nat.repr result.totalIssues ++ "\n" ++
        "- Critical Issues: " ++ Nat.repr result.criticalIssues ++ " 🔴\n" ++
        "- Warnings: " ++ Nat.repr result.warnings ++ " ⚠️\n\n" ++
        result.summary ++ "\n\n") ++
        ("### Files Analysis\n\n" ++
          (filesSection result.files ++
            "---\n*Analyzed by [Code Intelligence AI](https://github.com/yourusername/code-intelligence-ai)*")) := by
    simp [commentBody, h0, String.append_assoc]
  rw [heq]
  exact containsSub_append_right _ _ _
    (containsSub_append_right _ _ _
      (containsSub_append_left _ _ _ (filesSection_contains result.files f h)))

/-- Witness for `comment_c5_amended`: the failed file `b.ts` is listed. -/
theorem comment_c5_amended_witness :
    containsSub (commentBody (aggregateOf 7 [okFA, failFA])) failFA.filename = true :=
  comment_c5_amended (aggregateOf 7 [okFA, failFA]) failFA (by decide)

end CodeIntel
